import Mathlib

/-!
Verification of the circuit-construction layer of the ezkl circuit builder:
selector polynomials, static lookup tables, range checks and the base
configuration.  Rust sources: `src/circuit/table.rs` and
`src/circuit/ops/chip.rs`.

Modelling conventions: the prime field `F` becomes `ZMod p`; `i64` becomes
`ℤ` with Rust truncated division rendered by `Int.tdiv`; `usize` becomes `ℕ`;
fallible calls return `Except`.  Halo2 collaborator types (constraint system,
layouter, columns, selectors) are modelled by explicit state records that
track exactly the observations the source makes of them.
-/

namespace Ezkl

/-- Models the fragment of the halo2 `Expression<F>` AST that
`SelectorConstructor` builds: constants, one free query expression
(the chunk-index witness passed as `expr`), subtraction and multiplication. -/
inductive Expr (p : ℕ) where
  | const : ZMod p → Expr p
  | var : Expr p
  | sub : Expr p → Expr p → Expr p
  | mul : Expr p → Expr p → Expr p

/-- Evaluation of a modelled expression at a value `x` of the free query. -/
def Expr.eval {p : ℕ} (x : ZMod p) : Expr p → ZMod p
  | .const c => c
  | .var => x
  | .sub a b => Expr.eval x a - Expr.eval x b
  | .mul a b => Expr.eval x a * Expr.eval x b

/-- Models `SelectorConstructor` (table.rs lines 28-44): it carries only the
multiplexing `degree`. -/
structure SelectorConstructor (p : ℕ) where
  degree : ℕ

/-- Models `SelectorConstructor::get_expr_at_idx` (table.rs lines 47-60):
over indices `0..degree` with `j ≠ i`, the term is `expr` when `j = 0` and
`Constant(j) - expr` otherwise; the terms are reduced by multiplication with
identity `Constant(1)`. -/
def SelectorConstructor.get_expr_at_idx {p : ℕ} (s : SelectorConstructor p)
    (i : ℕ) (expr : Expr p) : Expr p :=
  (((List.range s.degree).filter (fun x => x != i)).map
      (fun (j : ℕ) => if j = 0 then expr else Expr.sub (Expr.const (j : ZMod p)) expr)).foldl
    Expr.mul (Expr.const 1)

/-- Models `SelectorConstructor::get_selector_val_at_idx` (table.rs lines
63-76): the product over `x ∈ 0..degree`, `x ≠ i`, of `F::from(i)` when
`x = 0` and `F::from(x) - F::from(i)` otherwise. -/
def SelectorConstructor.get_selector_val_at_idx {p : ℕ} (s : SelectorConstructor p)
    (i : ℕ) : ZMod p :=
  (((List.range s.degree).filter (fun x => x != i)).map
      (fun (x : ℕ) => if x = 0 then (i : ZMod p) else (x : ZMod p) - (i : ZMod p))).prod

lemma Expr.eval_foldl_mul {p : ℕ} (x : ZMod p) (l : List (Expr p)) (e : Expr p) :
    Expr.eval x (l.foldl Expr.mul e) = Expr.eval x e * (l.map (Expr.eval x)).prod := by
  induction l generalizing e with
  | nil => simp
  | cons a l ih =>
    simp only [List.foldl_cons, List.map_cons, List.prod_cons, ih]
    simp [Expr.eval, mul_assoc]

lemma natCast_sub_ne_zero {p : ℕ} [Fact p.Prime] {a b : ℕ}
    (hab : a ≠ b) (ha : a < p) (hb : b < p) : (a : ZMod p) - (b : ZMod p) ≠ 0 := by
  intro h
  have h' : (((a : ℤ) - (b : ℤ) : ℤ) : ZMod p) = 0 := by push_cast; linear_combination h
  rw [ZMod.intCast_zmod_eq_zero_iff_dvd] at h'
  have habs : |(a : ℤ) - (b : ℤ)| < (p : ℤ) := by
    rw [abs_sub_lt_iff]
    constructor <;> omega
  have := Int.eq_zero_of_abs_lt_dvd h' habs
  omega

lemma selector_val_factor_ne_zero {p : ℕ} [Fact p.Prime] {d i j : ℕ}
    (hdp : d ≤ p) (hi : i < d) (hj : j < d) (hji : j ≠ i) :
    (if j = 0 then (i : ZMod p) else (j : ZMod p) - (i : ZMod p)) ≠ 0 := by
  by_cases h0 : j = 0
  · subst h0
    rw [if_pos rfl]
    intro h
    rw [ZMod.natCast_zmod_eq_zero_iff_dvd] at h
    have : i = 0 := by
      rcases Nat.eq_zero_or_pos i with h' | h'
      · exact h'
      · exact absurd (Nat.le_of_dvd h' h) (by omega)
    omega
  · simp only [if_neg h0]
    exact natCast_sub_ne_zero hji (by omega) (by omega)

/-- Shared helper: the selector value is a nonzero field element whenever the
index is within the degree and the degree does not exceed the field
characteristic. -/
lemma get_selector_val_at_idx_ne_zero {p : ℕ} [Fact p.Prime] {d i : ℕ}
    (hdp : d ≤ p) (hi : i < d) :
    (SelectorConstructor.mk d : SelectorConstructor p).get_selector_val_at_idx i ≠ 0 := by
  unfold SelectorConstructor.get_selector_val_at_idx
  apply List.prod_ne_zero
  intro hmem
  obtain ⟨j, hj, hval⟩ := List.mem_map.mp hmem
  have hj' : j < d ∧ j ≠ i := by
    simpa [List.mem_filter] using hj
  exact selector_val_factor_ne_zero hdp hi hj'.1 hj'.2 hval

/-- C1.  Selector-polynomial orthogonality: for every degree `d ≥ 1` of a
`SelectorConstructor` and all indices `i ≠ i'` below `d` (with `d` at most the
field characteristic), evaluating the expression returned by
`get_expr_at_idx(i, expr)` at the index value `expr = i'` yields zero, and
evaluating it at `expr = i` yields exactly `get_selector_val_at_idx(i)`,
which is nonzero. -/
theorem selector_orthogonality {p : ℕ} [Fact p.Prime] (d i i' : ℕ)
    (hd : 1 ≤ d) (hdp : d ≤ p) (hi : i < d) (hi' : i' < d) (hne : i ≠ i') :
    Expr.eval (i' : ZMod p)
        ((SelectorConstructor.mk d : SelectorConstructor p).get_expr_at_idx i Expr.var) = 0 ∧
    Expr.eval (i : ZMod p)
        ((SelectorConstructor.mk d : SelectorConstructor p).get_expr_at_idx i Expr.var)
      = (SelectorConstructor.mk d : SelectorConstructor p).get_selector_val_at_idx i ∧
    (SelectorConstructor.mk d : SelectorConstructor p).get_selector_val_at_idx i ≠ 0 := by
  refine ⟨?_, ?_, get_selector_val_at_idx_ne_zero hdp hi⟩
  · unfold SelectorConstructor.get_expr_at_idx
    rw [Expr.eval_foldl_mul]
    rw [List.map_map]
    apply mul_eq_zero_of_right
    apply List.prod_eq_zero
    apply List.mem_map.mpr
    refine ⟨i', ?_, ?_⟩
    · simp [List.mem_filter, List.mem_range, hi']
      omega
    · by_cases h0 : i' = 0
      · subst h0; simp [Expr.eval]
      · simp [if_neg h0, Expr.eval]
  · unfold SelectorConstructor.get_expr_at_idx SelectorConstructor.get_selector_val_at_idx
    rw [Expr.eval_foldl_mul, List.map_map]
    have hfun : ∀ j : ℕ,
        (Expr.eval (i : ZMod p) ∘ fun (j : ℕ) =>
          if j = 0 then Expr.var else Expr.sub (Expr.const (j : ZMod p)) Expr.var) j
        = (fun (x : ℕ) => if x = 0 then (i : ZMod p) else (x : ZMod p) - (i : ZMod p)) j := by
      intro j
      by_cases h0 : j = 0 <;> simp [h0, Expr.eval]
    rw [List.map_congr_left (fun j _ => hfun j)]
    simp [Expr.eval]

/-- Models `RESERVED_BLINDING_ROWS_PAD` (table.rs line 26). -/
def RESERVED_BLINDING_ROWS_PAD : ℕ := 3

/-- Models `Table::cal_col_size` (table.rs lines 122-124). -/
def cal_col_size (logrows reserved_blinding_rows : ℕ) : ℕ :=
  2 ^ logrows - reserved_blinding_rows

/-- Models `num_cols_required` (table.rs lines 133-136): `i64` truncated
division of the range length by the column size, plus one. -/
def num_cols_required (range_len : ℤ) (col_size : ℕ) : ℕ :=
  (range_len.tdiv (col_size : ℤ)).toNat + 1

/-- Modelled from the spec: `fieldutils::i64_to_felt` (not under src/), the
conversion from small signed integers into the opaque field (§3 "conversion
from small integers"); a negative integer maps to the additive inverse of its
magnitude. -/
def i64_to_felt (p : ℕ) (x : ℤ) : ZMod p := (x : ZMod p)

/-- Modelled from the spec: `fieldutils::felt_to_i64` (not under src/), the
inverse conversion on the range of small integers: field elements in the
lower half of the field read back as nonnegative, the rest as negative. -/
def felt_to_i64 (p : ℕ) (x : ZMod p) : ℤ :=
  if 2 * x.val < p then (x.val : ℤ) else (x.val : ℤ) - (p : ℤ)

/-- Shared helper: the integer conversions round-trip on integers of
magnitude below half the field characteristic. -/
lemma felt_to_i64_i64_to_felt {p : ℕ} [NeZero p] (v : ℤ) (hv : 2 * v.natAbs < p) :
    felt_to_i64 p (i64_to_felt p v) = v := by
  have hval : (((v : ZMod p).val : ℤ)) = v % (p : ℤ) := ZMod.val_intCast v
  have hp : 0 < (p : ℤ) := by exact_mod_cast NeZero.pos p
  have h1 : 0 ≤ v % (p : ℤ) := Int.emod_nonneg v (by omega)
  have h2 : v % (p : ℤ) < p := Int.emod_lt_of_pos v hp
  have habs : 2 * |v| < (p : ℤ) := by
    rw [← Int.natCast_natAbs]
    exact_mod_cast hv
  have hcase : v % (p : ℤ) = v ∨ v % (p : ℤ) = v + p := by
    rcases le_or_lt 0 v with h | h
    · left
      exact Int.emod_eq_of_lt h (by rw [abs_of_nonneg h] at habs; omega)
    · right
      have hshift : (v + p) % p = v % p := by
        have := Int.add_mul_emod_self_left (a := v) (b := (p : ℤ)) (c := 1)
        simpa using this
      rw [← hshift]
      exact Int.emod_eq_of_lt (by rw [abs_of_neg h] at habs; omega) (by rw [abs_of_neg h] at habs; omega)
  unfold felt_to_i64 i64_to_felt
  rcases hcase with h | h
  · rw [if_pos]
    · omega
    · rcases le_or_lt 0 v with h' | h'
      · rw [abs_of_nonneg h'] at habs
        omega
      · omega
  · rw [if_neg]
    · omega
    · rw [abs_of_neg (by omega : v < 0)] at habs
      omega

/-- Models `Table<F>` (table.rs lines 80-97).  Physical `TableColumn` handles
become abstract column identifiers (`ℕ`); the `LookupOp` nonlinearity is kept
as the pointwise field function it evaluates. -/
structure TableM (p : ℕ) where
  nonlinearity : ZMod p → ZMod p
  table_inputs : List ℕ
  col_size : ℕ
  table_outputs : List ℕ
  selector_constructor : SelectorConstructor p
  is_assigned : Bool
  range : ℤ × ℤ

/-- Models `Table::get_col_index` (table.rs lines 101-107). -/
def TableM.get_col_index {p : ℕ} (t : TableM p) (input : ZMod p) : ZMod p :=
  i64_to_felt p ((|felt_to_i64 p input - t.range.1|).tdiv (t.col_size : ℤ))

/-- Models `Table::get_first_element` (table.rs lines 110-119). -/
def TableM.get_first_element {p : ℕ} (t : TableM p) (chunk : ℕ) : ZMod p × ZMod p :=
  let first_element := i64_to_felt p ((chunk : ℤ) * (t.col_size : ℤ) + t.range.1)
  (first_element, t.nonlinearity first_element)

/-- Models `Table::cartesian_coord` (table.rs lines 186-190). -/
def TableM.cartesian_coord {p : ℕ} (t : TableM p) (linear_coord : ℕ) : ℕ × ℕ :=
  (linear_coord / t.col_size, linear_coord % t.col_size)

/-- Models the allocation-tracking slice of halo2's `ConstraintSystem`: a
blinding-factor count plus counters of allocated table columns, selectors,
lookup arguments and gates.  Allocation hands out consecutive identifiers. -/
structure ConstraintSystemM where
  blinding_factors : ℕ
  next_table_column : ℕ
  next_selector : ℕ
  num_lookups : ℕ
  num_gates : ℕ

/-- Models a `for _ in 0..n { cols.push(cs.lookup_table_column()) }` loop:
returns the `n` freshly allocated column identifiers and the updated state. -/
def ConstraintSystemM.alloc_table_columns (cs : ConstraintSystemM) (n : ℕ) :
    List ℕ × ConstraintSystemM :=
  ((List.range n).map (fun k => cs.next_table_column + k),
    { cs with next_table_column := cs.next_table_column + n })

/-- Models `Table::configure` (table.rs lines 140-183). -/
def TableM.configure {p : ℕ} (cs : ConstraintSystemM) (range : ℤ × ℤ) (logrows : ℕ)
    (nonlinearity : ZMod p → ZMod p) (preexisting_inputs : Option (List ℕ)) :
    TableM p × ConstraintSystemM :=
  let factors := cs.blinding_factors + RESERVED_BLINDING_ROWS_PAD
  let col_size := cal_col_size logrows factors
  let state0 := match preexisting_inputs with
    | some cols => (cols, cs)
    | none => cs.alloc_table_columns (num_cols_required (|range.2 - range.1|) col_size)
  let table_inputs := state0.1
  let num_cols := table_inputs.length
  let state1 := state0.2.alloc_table_columns num_cols
  ({ nonlinearity := nonlinearity,
     table_inputs := table_inputs,
     table_outputs := state1.1,
     is_assigned := false,
     selector_constructor := SelectorConstructor.mk num_cols,
     col_size := col_size,
     range := range }, state1.2)

/-- Shared helper: for a nonnegative length, `num_cols_required` is floor
division plus one. -/
lemma num_cols_required_eq_floor (range_len : ℤ) (col_size : ℕ) (h0 : 0 ≤ range_len) :
    num_cols_required range_len col_size = range_len.toNat / col_size + 1 := by
  unfold num_cols_required
  rw [Int.tdiv_eq_ediv h0 (Int.natCast_nonneg col_size)]
  obtain ⟨n, rfl⟩ := Int.eq_ofNat_of_zero_le h0
  rw [← Int.natCast_div, Int.toNat_natCast, Int.toNat_natCast]

/-- C7.  Column-count formula: for every non-negative `range_len` and positive
`col_size`, `num_cols_required(range_len, col_size)` equals
`floor(range_len / col_size) + 1`. -/
theorem num_cols_required_formula (range_len : ℤ) (col_size : ℕ)
    (h0 : 0 ≤ range_len) (h1 : 0 < col_size) :
    num_cols_required range_len col_size = range_len.toNat / col_size + 1 :=
  num_cols_required_eq_floor range_len col_size h0

/-- Concrete instantiation of `num_cols_required_formula` at
`range_len = 7`, `col_size = 3`: both sides evaluate to `3`. -/
theorem num_cols_required_formula_witness :
    num_cols_required 7 3 = (7 : ℤ).toNat / 3 + 1 ∧ num_cols_required 7 3 = 3 :=
  ⟨num_cols_required_formula 7 3 (by decide) (by decide), by decide⟩

/-- C6 counterexample: with one blinding factor and `logrows = 3` the column
size is `2^3 - (1 + 3) = 4`; for `range = (0, 1)` the code allocates
`floor(1/4) + 1 = 1` input column, but the claimed formula
`ceil(1/4) + 1 = 2` predicts two. -/
theorem table_configure_ceil_counterexample :
    ¬ ((TableM.configure ⟨1, 0, 0, 0, 0⟩ ((0 : ℤ), (1 : ℤ)) 3 (fun x => x) none
          : TableM 5 × ConstraintSystemM).1.table_inputs.length
        = ((((0 : ℤ), (1 : ℤ)).2 - ((0 : ℤ), (1 : ℤ)).1).natAbs + 4 - 1) / 4 + 1) := by
  decide

/-- C6 (amended).  `Table::configure` computes
`col_size = 2^logrows - (blinding_factors + 3)` and, when no preexisting
input columns are supplied, allocates
`num_cols = floor(|range.1 - range.0| / col_size) + 1` input table columns
and an equal number of output columns. -/
theorem table_configure_col_allocation {p : ℕ} (cs : ConstraintSystemM) (range : ℤ × ℤ)
    (logrows : ℕ) (nl : ZMod p → ZMod p)
    (hpad : cs.blinding_factors + RESERVED_BLINDING_ROWS_PAD < 2 ^ logrows) :
    (TableM.configure cs range logrows nl none).1.col_size
        = 2 ^ logrows - (cs.blinding_factors + RESERVED_BLINDING_ROWS_PAD)
    ∧ (TableM.configure cs range logrows nl none).1.table_inputs.length
        = (range.2 - range.1).natAbs / (TableM.configure cs range logrows nl none).1.col_size + 1
    ∧ (TableM.configure cs range logrows nl none).1.table_outputs.length
        = (TableM.configure cs range logrows nl none).1.table_inputs.length := by
  unfold TableM.configure ConstraintSystemM.alloc_table_columns cal_col_size
  refine ⟨rfl, ?_, by simp⟩
  simp only [List.length_map, List.length_range]
  rw [num_cols_required_eq_floor _ _ (abs_nonneg _)]
  rw [Int.abs_eq_natAbs, Int.toNat_natCast]

/-- Concrete instantiation of `table_configure_col_allocation` with one
blinding factor, `logrows = 3` and `range = (-3, 3)`. -/
theorem table_configure_col_allocation_witness :
    (TableM.configure ⟨1, 0, 0, 0, 0⟩ ((-3 : ℤ), (3 : ℤ)) 3 (fun x => x) none
        : TableM 5 × ConstraintSystemM).1.col_size = 2 ^ 3 - (1 + RESERVED_BLINDING_ROWS_PAD)
    ∧ (TableM.configure ⟨1, 0, 0, 0, 0⟩ ((-3 : ℤ), (3 : ℤ)) 3 (fun x => x) none
        : TableM 5 × ConstraintSystemM).1.table_inputs.length
      = ((3 : ℤ) - (-3 : ℤ)).natAbs
          / (TableM.configure ⟨1, 0, 0, 0, 0⟩ ((-3 : ℤ), (3 : ℤ)) 3 (fun x => x) none
              : TableM 5 × ConstraintSystemM).1.col_size + 1
    ∧ (TableM.configure ⟨1, 0, 0, 0, 0⟩ ((-3 : ℤ), (3 : ℤ)) 3 (fun x => x) none
        : TableM 5 × ConstraintSystemM).1.table_outputs.length
      = (TableM.configure ⟨1, 0, 0, 0, 0⟩ ((-3 : ℤ), (3 : ℤ)) 3 (fun x => x) none
          : TableM 5 × ConstraintSystemM).1.table_inputs.length :=
  table_configure_col_allocation ⟨1, 0, 0, 0, 0⟩ ((-3 : ℤ), (3 : ℤ)) 3 (fun x => x) (by decide)

/-- C10.  Chunk-index consistency: for every table with range `(lo, hi)` and
integer `lo ≤ v ≤ hi` of magnitude below half the field characteristic, the
chunk index returned by `get_col_index` on the field encoding of `v` equals
(the field encoding of) the column coordinate returned by
`cartesian_coord(v - lo)`. -/
theorem chunk_index_consistency {p : ℕ} [NeZero p] (t : TableM p) (v : ℤ)
    (hlo : t.range.1 ≤ v) (hhi : v ≤ t.range.2) (hv : 2 * v.natAbs < p) :
    t.get_col_index (i64_to_felt p v)
      = ((t.cartesian_coord (v - t.range.1).toNat).1 : ZMod p) := by
  unfold TableM.get_col_index TableM.cartesian_coord
  rw [felt_to_i64_i64_to_felt v hv]
  have h0 : 0 ≤ v - t.range.1 := by omega
  rw [abs_of_nonneg h0, Int.tdiv_eq_ediv h0 (Int.natCast_nonneg _)]
  obtain ⟨n, hn⟩ := Int.eq_ofNat_of_zero_le h0
  unfold i64_to_felt
  rw [hn, ← Int.natCast_div, Int.cast_natCast, Int.toNat_natCast]

/-- Concrete instantiation of `chunk_index_consistency` at `p = 101`,
`range = (-3, 3)`, `col_size = 4`, `v = 2`. -/
theorem chunk_index_consistency_witness :
    ((⟨fun x => x, [0], 4, [1], ⟨2⟩, false, ((-3 : ℤ), (3 : ℤ))⟩ : TableM 101).get_col_index
          (i64_to_felt 101 2))
      = (((⟨fun x => x, [0], 4, [1], ⟨2⟩, false, ((-3 : ℤ), (3 : ℤ))⟩ : TableM 101).cartesian_coord
              ((2 : ℤ) - (-3 : ℤ)).toNat).1 : ZMod 101) := by
  haveI : NeZero (101 : ℕ) := ⟨by decide⟩
  exact chunk_index_consistency _ 2 (by decide) (by decide) (by decide)

/-- Concrete instantiation of `selector_orthogonality` at `p = 13`, `d = 3`,
`i = 1`, `i' = 2`. -/
theorem selector_orthogonality_witness :
    Expr.eval ((2 : ℕ) : ZMod 13)
        ((SelectorConstructor.mk 3 : SelectorConstructor 13).get_expr_at_idx 1 Expr.var) = 0 ∧
    Expr.eval ((1 : ℕ) : ZMod 13)
        ((SelectorConstructor.mk 3 : SelectorConstructor 13).get_expr_at_idx 1 Expr.var)
      = (SelectorConstructor.mk 3 : SelectorConstructor 13).get_selector_val_at_idx 1 ∧
    (SelectorConstructor.mk 3 : SelectorConstructor 13).get_selector_val_at_idx 1 ≠ 0 := by
  haveI : Fact (Nat.Prime 13) := ⟨by norm_num⟩
  exact selector_orthogonality 3 1 2 (by decide) (by decide) (by decide) (by decide) (by decide)

/-- Models `CircuitError` (chip.rs lines 35-52). -/
inductive CircuitError where
  | DimMismatch : String → CircuitError
  | LookupInstantiation : CircuitError
  | TableAlreadyAssigned : CircuitError
  | UnsupportedOp : CircuitError
  | InvalidEinsum : CircuitError
deriving DecidableEq

/-- Models the `Box<dyn Error>` results of the layout entry points: either a
`CircuitError`, an underlying halo2 `plonk::Error` from a cell assignment, or
a plain message. -/
inductive LayoutError where
  | circuit : CircuitError → LayoutError
  | plonk : LayoutError
  | msg : String → LayoutError
deriving DecidableEq

/-- Record of one `assign_cell` call: which side of the table was written
(`is_input`), the column coordinate `col` and row `row` within that side, and
the assigned field value. -/
structure CellWrite (p : ℕ) where
  is_input : Bool
  col : ℕ
  row : ℕ
  val : ZMod p
deriving DecidableEq

/-- Models the halo2 layouter as the trace of performed cell assignments,
plus an optional injected fault: the assignment whose ordinal equals
`fail_at` fails with a plonk error (modelling an underlying cell-assignment
failure mid-write). -/
structure LayouterM (p : ℕ) where
  writes : List (CellWrite p)
  fail_at : Option ℕ
deriving DecidableEq

/-- Models one `assign_cell` call against the layouter. -/
def LayouterM.assign_cell {p : ℕ} (ly : LayouterM p) (w : CellWrite p) :
    Except LayoutError (LayouterM p) :=
  if ly.fail_at = some ly.writes.length then .error .plonk
  else .ok { ly with writes := ly.writes ++ [w] }

/-- One step of the `collect::<Result<...>>` fold over the cell assignments:
once an error has occurred the remaining writes are skipped. -/
def assign_step {p : ℕ} (acc : Option LayoutError × LayouterM p) (w : CellWrite p) :
    Option LayoutError × LayouterM p :=
  match acc.1 with
  | some _ => acc
  | none =>
    match acc.2.assign_cell w with
    | .ok ly' => (none, ly')
    | .error e => (some e, acc.2)

/-- Performs a sequence of cell assignments in order, stopping at the first
failure; the writes made before the failure are kept (halo2 does not roll
back assignments). -/
def assign_all {p : ℕ} (ly : LayouterM p) (ws : List (CellWrite p)) :
    Option LayoutError × LayouterM p :=
  ws.foldl assign_step (none, ly)

/-- Structural worker for `chunksOf`: the fuel argument bounds the number of
chunks still to emit and is initialised with the list length. -/
def chunksOfAux {α : Type} (n : ℕ) : ℕ → List α → List (List α)
  | _, [] => []
  | 0, _ :: _ => []
  | fuel + 1, a :: rest =>
    if n = 0 then []
    else List.take n (a :: rest) :: chunksOfAux n fuel (List.drop n (a :: rest))

/-- Modelled from the spec: `Tensor::chunks` (tensor module, not under src/)
splits the flat value list into consecutive chunks of `n` elements each, the
last chunk possibly shorter. -/
def chunksOf {α : Type} (n : ℕ) (l : List α) : List (List α) :=
  chunksOfAux n l.length l

lemma chunksOfAux_fuel_congr {α : Type} (n : ℕ) : ∀ (fuel fuel' : ℕ) (l : List α),
    l.length ≤ fuel → l.length ≤ fuel' → chunksOfAux n fuel l = chunksOfAux n fuel' l := by
  intro fuel
  induction fuel with
  | zero =>
    intro fuel' l h h'
    cases l with
    | nil => cases fuel' <;> rfl
    | cons a rest => simp at h
  | succ f ih =>
    intro fuel' l h h'
    cases l with
    | nil => cases fuel' <;> rfl
    | cons a rest =>
      cases fuel' with
      | zero => simp at h'
      | succ f' =>
        unfold chunksOfAux
        by_cases hn : n = 0
        · rw [if_pos hn, if_pos hn]
        · rw [if_neg hn, if_neg hn]
          congr 1
          apply ih
          · simp only [List.length_drop, List.length_cons]
            simp only [List.length_cons] at h
            omega
          · simp only [List.length_drop, List.length_cons]
            simp only [List.length_cons] at h'
            omega

/-- Unfolding equation for `chunksOf` on a nonempty list and positive chunk
size. -/
lemma chunksOf_cons {α : Type} (n : ℕ) (hn : n ≠ 0) (a : α) (rest : List α) :
    chunksOf n (a :: rest)
      = List.take n (a :: rest) :: chunksOf n (List.drop n (a :: rest)) := by
  have h1 : chunksOf n (a :: rest)
      = if n = 0 then []
        else List.take n (a :: rest) :: chunksOfAux n rest.length (List.drop n (a :: rest)) := rfl
  rw [h1, if_neg hn]
  congr 1
  apply chunksOfAux_fuel_congr
  · simp only [List.length_drop, List.length_cons]
    omega
  · exact le_rfl

/-- Decidable equality for `Except` results, used to evaluate layout outcomes
on concrete inputs. -/
def exceptDecEq {ε α : Type} [DecidableEq ε] [DecidableEq α] :
    (a b : Except ε α) → Decidable (a = b)
  | .error e, .error f =>
    if h : e = f then .isTrue (congrArg Except.error h)
    else .isFalse (fun hc => h (by injection hc))
  | .error _, .ok _ => .isFalse (fun hc => Except.noConfusion hc)
  | .ok _, .error _ => .isFalse (fun hc => Except.noConfusion hc)
  | .ok x, .ok y =>
    if h : x = y then .isTrue (congrArg Except.ok h)
    else .isFalse (fun hc => h (by injection hc))

instance {ε α : Type} [DecidableEq ε] [DecidableEq α] : DecidableEq (Except ε α) :=
  exceptDecEq

/-- Models a Rust `.iter().enumerate().map(...)` pass over the rows of one
chunk, collecting the per-row lists of cell writes in order; the first
argument of `f` is the running row index. -/
def enumMapRows {α β : Type} (f : ℕ → α → List β) : ℕ → List α → List β
  | _, [] => []
  | r, a :: rest => f r a ++ enumMapRows f (r + 1) rest

/-- Models the outer `.enumerate().map(...)` pass over the chunks; the first
argument of `f` is the chunk index, the second the row index within the
chunk. -/
def enumMapChunks {α β : Type} (f : ℕ → ℕ → α → List β) : ℕ → List (List α) → List β
  | _, [] => []
  | ci, c :: rest => enumMapRows (f ci) 0 c ++ enumMapChunks f (ci + 1) rest

/-- Models the sequence of `assign_cell` calls performed by `Table::layout`
(table.rs lines 202-254): the domain `smallest..=largest` is mapped into the
field, the nonlinearity is evaluated pointwise, the inputs are chunked by
`col_size`, and each chunk is written (inputs skipped when
`preassigned_input`) at its cartesian coordinates, scaled by the chunk's
selector multiplier. -/
def TableM.layout_writes {p : ℕ} (t : TableM p) (preassigned_input : Bool) :
    List (CellWrite p) :=
  let smallest := t.range.1
  let largest := t.range.2
  let inputs : List (ZMod p) :=
    (List.range (largest - smallest + 1).toNat).map
      (fun (k : ℕ) => i64_to_felt p (smallest + (k : ℤ)))
  let evals := inputs.map t.nonlinearity
  let chunked_inputs := chunksOf t.col_size inputs
  let col_multipliers : List (ZMod p) :=
    (List.range chunked_inputs.length).map
      (fun x => t.selector_constructor.get_selector_val_at_idx x)
  enumMapChunks (fun chunk_idx r input =>
    let col_multiplier := col_multipliers.getD chunk_idx 0
    let row_offset := r + chunk_idx * t.col_size
    let xy := t.cartesian_coord row_offset
    (if preassigned_input then [] else [⟨true, xy.1, xy.2, input * col_multiplier⟩])
      ++ [⟨false, xy.1, xy.2, evals.getD row_offset 0 * col_multiplier⟩])
    0 chunked_inputs

/-- Models `Table::layout` (table.rs lines 193-256): fails immediately with
`TableAlreadyAssigned` when already assigned; otherwise sets `is_assigned`
before any cell is written, then performs the cell assignments in order,
propagating the first underlying assignment error. -/
def TableM.layout {p : ℕ} (t : TableM p) (ly : LayouterM p) (preassigned_input : Bool) :
    Except LayoutError Unit × TableM p × LayouterM p :=
  if t.is_assigned then (.error (.circuit .TableAlreadyAssigned), t, ly)
  else
    let t' := { t with is_assigned := true }
    match assign_all ly (t.layout_writes preassigned_input) with
    | (none, ly') => (.ok (), t', ly')
    | (some e, ly') => (.error e, t', ly')

/-- Models `RangeCheck<F>` (table.rs lines 259-273). -/
structure RangeCheckM (p : ℕ) where
  inputs : List ℕ
  col_size : ℕ
  selector_constructor : SelectorConstructor p
  is_assigned : Bool
  range : ℤ × ℤ

/-- Models `RangeCheck::get_first_element` (table.rs lines 276-281). -/
def RangeCheckM.get_first_element {p : ℕ} (rc : RangeCheckM p) (chunk : ℕ) : ZMod p :=
  i64_to_felt p ((chunk : ℤ) * (rc.col_size : ℤ) + rc.range.1)

/-- Models `RangeCheck::get_col_index` (table.rs lines 293-300). -/
def RangeCheckM.get_col_index {p : ℕ} (rc : RangeCheckM p) (input : ZMod p) : ZMod p :=
  i64_to_felt p ((|felt_to_i64 p input - rc.range.1|).tdiv (rc.col_size : ℤ))

/-- Models `RangeCheck::configure` (table.rs lines 305-335). -/
def RangeCheckM.configure {p : ℕ} (cs : ConstraintSystemM) (range : ℤ × ℤ)
    (logrows : ℕ) : RangeCheckM p × ConstraintSystemM :=
  let factors := cs.blinding_factors + RESERVED_BLINDING_ROWS_PAD
  let col_size := cal_col_size logrows factors
  let state0 := cs.alloc_table_columns (num_cols_required (|range.2 - range.1|) col_size)
  let num_cols := state0.1.length
  ({ inputs := state0.1,
     col_size := col_size,
     selector_constructor := SelectorConstructor.mk num_cols,
     is_assigned := false,
     range := range }, state0.2)

/-- Models `RangeCheck::cartesian_coord` (table.rs lines 338-342). -/
def RangeCheckM.cartesian_coord {p : ℕ} (rc : RangeCheckM p) (linear_coord : ℕ) : ℕ × ℕ :=
  (linear_coord / rc.col_size, linear_coord % rc.col_size)

/-- Models the sequence of `assign_cell` calls performed by
`RangeCheck::layout` (table.rs lines 350-390): like the table case but with
input cells only. -/
def RangeCheckM.layout_writes {p : ℕ} (rc : RangeCheckM p) : List (CellWrite p) :=
  let smallest := rc.range.1
  let largest := rc.range.2
  let inputs : List (ZMod p) :=
    (List.range (largest - smallest + 1).toNat).map
      (fun (k : ℕ) => i64_to_felt p (smallest + (k : ℤ)))
  let chunked_inputs := chunksOf rc.col_size inputs
  let col_multipliers : List (ZMod p) :=
    (List.range chunked_inputs.length).map
      (fun x => rc.selector_constructor.get_selector_val_at_idx x)
  enumMapChunks (fun chunk_idx r input =>
    let col_multiplier := col_multipliers.getD chunk_idx 0
    let row_offset := r + chunk_idx * rc.col_size
    let xy := rc.cartesian_coord row_offset
    [⟨true, xy.1, xy.2, input * col_multiplier⟩])
    0 chunked_inputs

/-- Models `RangeCheck::layout` (table.rs lines 345-392). -/
def RangeCheckM.layout {p : ℕ} (rc : RangeCheckM p) (ly : LayouterM p) :
    Except LayoutError Unit × RangeCheckM p × LayouterM p :=
  if rc.is_assigned then (.error (.circuit .TableAlreadyAssigned), rc, ly)
  else
    let rc' := { rc with is_assigned := true }
    match assign_all ly rc.layout_writes with
    | (none, ly') => (.ok (), rc', ly')
    | (some e, ly') => (.error e, rc', ly')

/-- Shared helper: a table layout call on an unassigned table marks it
assigned, whatever the assignment outcome. -/
lemma table_layout_assigns {p : ℕ} (t : TableM p) (ly : LayouterM p) (pre : Bool)
    (ht : t.is_assigned = false) :
    (t.layout ly pre).2.1 = { t with is_assigned := true } := by
  unfold TableM.layout
  rw [ht]
  simp only [Bool.false_eq_true, if_false]
  rcases h : assign_all ly (t.layout_writes pre) with ⟨e, ly'⟩
  cases e <;> simp [h]

/-- Shared helper: a range-check layout call on an unassigned range check
marks it assigned, whatever the assignment outcome. -/
lemma rangecheck_layout_assigns {p : ℕ} (rc : RangeCheckM p) (ly : LayouterM p)
    (hrc : rc.is_assigned = false) :
    (rc.layout ly).2.1 = { rc with is_assigned := true } := by
  unfold RangeCheckM.layout
  rw [hrc]
  simp only [Bool.false_eq_true, if_false]
  rcases h : assign_all ly rc.layout_writes with ⟨e, ly'⟩
  cases e <;> simp [h]

/-- Shared helper: layout on an already assigned table is the
`TableAlreadyAssigned` error and leaves both the table and the layouter
untouched. -/
lemma table_layout_already_assigned {p : ℕ} (t : TableM p) (ly : LayouterM p) (pre : Bool)
    (ht : t.is_assigned = true) :
    t.layout ly pre = (.error (.circuit .TableAlreadyAssigned), t, ly) := by
  unfold TableM.layout
  rw [ht]
  simp

/-- Shared helper: layout on an already assigned range check is the
`TableAlreadyAssigned` error and leaves both the range check and the layouter
untouched. -/
lemma rangecheck_layout_already_assigned {p : ℕ} (rc : RangeCheckM p) (ly : LayouterM p)
    (hrc : rc.is_assigned = true) :
    rc.layout ly = (.error (.circuit .TableAlreadyAssigned), rc, ly) := by
  unfold RangeCheckM.layout
  rw [hrc]
  simp

/-- C4.  Single assignment: after a first `layout` call on an unassigned
`Table` or `RangeCheck`, a second `layout` call (on the resulting table state
and layouter) returns the `TableAlreadyAssigned` error and leaves both the
table state and the assigned contents unchanged. -/
theorem table_rangecheck_single_assignment {p : ℕ} (t : TableM p) (rc : RangeCheckM p)
    (lyt lyr : LayouterM p) (pre pre2 : Bool)
    (ht : t.is_assigned = false) (hrc : rc.is_assigned = false) :
    TableM.layout (t.layout lyt pre).2.1 (t.layout lyt pre).2.2 pre2
        = (.error (.circuit .TableAlreadyAssigned), (t.layout lyt pre).2.1, (t.layout lyt pre).2.2)
    ∧ RangeCheckM.layout (rc.layout lyr).2.1 (rc.layout lyr).2.2
        = (.error (.circuit .TableAlreadyAssigned), (rc.layout lyr).2.1, (rc.layout lyr).2.2) := by
  constructor
  · apply table_layout_already_assigned
    rw [table_layout_assigns t lyt pre ht]
  · apply rangecheck_layout_already_assigned
    rw [rangecheck_layout_assigns rc lyr hrc]

/-- Concrete instantiation of `table_rangecheck_single_assignment`: a
one-column table and range check over `(0, 1)` with `col_size = 2`, laid out
twice from an empty fault-free layouter. -/
theorem table_rangecheck_single_assignment_witness :
    TableM.layout ((⟨fun x => x, [0], 2, [1], ⟨1⟩, false, ((0 : ℤ), (1 : ℤ))⟩ : TableM 5).layout
          ⟨[], none⟩ false).2.1
        ((⟨fun x => x, [0], 2, [1], ⟨1⟩, false, ((0 : ℤ), (1 : ℤ))⟩ : TableM 5).layout
          ⟨[], none⟩ false).2.2 false
      = (.error (.circuit .TableAlreadyAssigned),
          ((⟨fun x => x, [0], 2, [1], ⟨1⟩, false, ((0 : ℤ), (1 : ℤ))⟩ : TableM 5).layout
            ⟨[], none⟩ false).2.1,
          ((⟨fun x => x, [0], 2, [1], ⟨1⟩, false, ((0 : ℤ), (1 : ℤ))⟩ : TableM 5).layout
            ⟨[], none⟩ false).2.2)
    ∧ RangeCheckM.layout ((⟨[0], 2, ⟨1⟩, false, ((0 : ℤ), (1 : ℤ))⟩ : RangeCheckM 5).layout
          ⟨[], none⟩).2.1
        ((⟨[0], 2, ⟨1⟩, false, ((0 : ℤ), (1 : ℤ))⟩ : RangeCheckM 5).layout ⟨[], none⟩).2.2
      = (.error (.circuit .TableAlreadyAssigned),
          ((⟨[0], 2, ⟨1⟩, false, ((0 : ℤ), (1 : ℤ))⟩ : RangeCheckM 5).layout ⟨[], none⟩).2.1,
          ((⟨[0], 2, ⟨1⟩, false, ((0 : ℤ), (1 : ℤ))⟩ : RangeCheckM 5).layout ⟨[], none⟩).2.2) :=
  table_rangecheck_single_assignment _ _ _ _ false false rfl rfl

/-- Shared helper: once the fold has recorded an error it is stuck. -/
lemma foldl_assign_step_error {p : ℕ} (ws : List (CellWrite p)) (e : LayoutError)
    (ly : LayouterM p) : ws.foldl assign_step (some e, ly) = (some e, ly) := by
  induction ws with
  | nil => rfl
  | cons w rest ih => simpa [assign_step] using ih

/-- Shared helper: `assign_all` only ever appends writes. -/
lemma assign_all_writes_extend {p : ℕ} (ws : List (CellWrite p)) (ly : LayouterM p) :
    ∃ suffix, (assign_all ly ws).2.writes = ly.writes ++ suffix := by
  induction ws generalizing ly with
  | nil => exact ⟨[], by simp [assign_all]⟩
  | cons w rest ih =>
    unfold assign_all
    rw [List.foldl_cons]
    by_cases hf : ly.fail_at = some ly.writes.length
    · rw [show assign_step ((none : Option LayoutError), ly) w = (some .plonk, ly) by
        simp [assign_step, LayouterM.assign_cell, hf]]
      rw [foldl_assign_step_error]
      exact ⟨[], by simp⟩
    · rw [show assign_step ((none : Option LayoutError), ly) w
          = (none, ⟨ly.writes ++ [w], ly.fail_at⟩) by
        simp [assign_step, LayouterM.assign_cell, hf]]
      obtain ⟨suffix, hs⟩ := ih ⟨ly.writes ++ [w], ly.fail_at⟩
      exact ⟨w :: suffix, by rw [show rest.foldl assign_step (none, ⟨ly.writes ++ [w], ly.fail_at⟩)
          = assign_all ⟨ly.writes ++ [w], ly.fail_at⟩ rest from rfl, hs]; simp⟩

/-- C9.  Non-atomic error path: `Table::layout` and `RangeCheck::layout` set
`is_assigned` before assigning any cell, so when an underlying
cell-assignment error occurs mid-write the call returns that error with
`is_assigned` already true, every subsequent layout call returns
`TableAlreadyAssigned`, and the writes performed before the failure are not
rolled back. -/
theorem layout_error_not_rolled_back {p : ℕ} (t : TableM p) (rc : RangeCheckM p)
    (lyt lyr : LayouterM p) (pre : Bool)
    (ht : t.is_assigned = false) (hrc : rc.is_assigned = false)
    (het : (t.layout lyt pre).1 = .error .plonk)
    (her : (rc.layout lyr).1 = .error .plonk) :
    ((t.layout lyt pre).2.1.is_assigned = true
      ∧ (∃ suffix, (t.layout lyt pre).2.2.writes = lyt.writes ++ suffix)
      ∧ TableM.layout (t.layout lyt pre).2.1 (t.layout lyt pre).2.2 pre
          = (.error (.circuit .TableAlreadyAssigned),
              (t.layout lyt pre).2.1, (t.layout lyt pre).2.2))
    ∧ ((rc.layout lyr).2.1.is_assigned = true
      ∧ (∃ suffix, (rc.layout lyr).2.2.writes = lyr.writes ++ suffix)
      ∧ RangeCheckM.layout (rc.layout lyr).2.1 (rc.layout lyr).2.2
          = (.error (.circuit .TableAlreadyAssigned),
              (rc.layout lyr).2.1, (rc.layout lyr).2.2)) := by
  have hta := table_layout_assigns t lyt pre ht
  have hra := rangecheck_layout_assigns rc lyr hrc
  refine ⟨⟨by rw [hta], ?_, table_layout_already_assigned _ _ _ (by rw [hta])⟩,
          ⟨by rw [hra], ?_, rangecheck_layout_already_assigned _ _ (by rw [hra])⟩⟩
  · have : (t.layout lyt pre).2.2 = (assign_all lyt (t.layout_writes pre)).2 := by
      unfold TableM.layout
      rw [ht]
      simp only [Bool.false_eq_true, if_false]
      rcases h : assign_all lyt (t.layout_writes pre) with ⟨e, ly'⟩
      cases e <;> simp [h]
    rw [this]
    exact assign_all_writes_extend _ _
  · have : (rc.layout lyr).2.2 = (assign_all lyr rc.layout_writes).2 := by
      unfold RangeCheckM.layout
      rw [hrc]
      simp only [Bool.false_eq_true, if_false]
      rcases h : assign_all lyr rc.layout_writes with ⟨e, ly'⟩
      cases e <;> simp [h]
    rw [this]
    exact assign_all_writes_extend _ _

/-- Concrete instantiation of `layout_error_not_rolled_back`: layouters whose
injected fault hits the very first cell assignment of a table and of a range
check. -/
theorem layout_error_not_rolled_back_witness :
    (((⟨fun x => x, [0], 2, [1], ⟨1⟩, false, ((0 : ℤ), (1 : ℤ))⟩ : TableM 5).layout
          ⟨[], some 0⟩ false).2.1.is_assigned = true
      ∧ (∃ suffix, ((⟨fun x => x, [0], 2, [1], ⟨1⟩, false, ((0 : ℤ), (1 : ℤ))⟩ : TableM 5).layout
            ⟨[], some 0⟩ false).2.2.writes = (⟨[], some 0⟩ : LayouterM 5).writes ++ suffix)
      ∧ TableM.layout ((⟨fun x => x, [0], 2, [1], ⟨1⟩, false, ((0 : ℤ), (1 : ℤ))⟩ : TableM 5).layout
            ⟨[], some 0⟩ false).2.1
          ((⟨fun x => x, [0], 2, [1], ⟨1⟩, false, ((0 : ℤ), (1 : ℤ))⟩ : TableM 5).layout
            ⟨[], some 0⟩ false).2.2 false
          = (.error (.circuit .TableAlreadyAssigned),
              ((⟨fun x => x, [0], 2, [1], ⟨1⟩, false, ((0 : ℤ), (1 : ℤ))⟩ : TableM 5).layout
                ⟨[], some 0⟩ false).2.1,
              ((⟨fun x => x, [0], 2, [1], ⟨1⟩, false, ((0 : ℤ), (1 : ℤ))⟩ : TableM 5).layout
                ⟨[], some 0⟩ false).2.2))
    ∧ (((⟨[0], 2, ⟨1⟩, false, ((0 : ℤ), (1 : ℤ))⟩ : RangeCheckM 5).layout
          ⟨[], some 0⟩).2.1.is_assigned = true
      ∧ (∃ suffix, ((⟨[0], 2, ⟨1⟩, false, ((0 : ℤ), (1 : ℤ))⟩ : RangeCheckM 5).layout
            ⟨[], some 0⟩).2.2.writes = (⟨[], some 0⟩ : LayouterM 5).writes ++ suffix)
      ∧ RangeCheckM.layout ((⟨[0], 2, ⟨1⟩, false, ((0 : ℤ), (1 : ℤ))⟩ : RangeCheckM 5).layout
            ⟨[], some 0⟩).2.1
          ((⟨[0], 2, ⟨1⟩, false, ((0 : ℤ), (1 : ℤ))⟩ : RangeCheckM 5).layout ⟨[], some 0⟩).2.2
          = (.error (.circuit .TableAlreadyAssigned),
              ((⟨[0], 2, ⟨1⟩, false, ((0 : ℤ), (1 : ℤ))⟩ : RangeCheckM 5).layout
                ⟨[], some 0⟩).2.1,
              ((⟨[0], 2, ⟨1⟩, false, ((0 : ℤ), (1 : ℤ))⟩ : RangeCheckM 5).layout
                ⟨[], some 0⟩).2.2)) :=
  layout_error_not_rolled_back _ _ _ _ false rfl rfl (by decide) (by decide)

lemma enumMapRows_append {α β : Type} (g : ℕ → α → List β) (l₁ l₂ : List α) :
    ∀ i : ℕ, enumMapRows g i (l₁ ++ l₂)
      = enumMapRows g i l₁ ++ enumMapRows g (i + l₁.length) l₂ := by
  induction l₁ with
  | nil => intro i; simp [enumMapRows]
  | cons a rest ih =>
    intro i
    show g i a ++ enumMapRows g (i + 1) (rest ++ l₂) = _
    rw [ih (i + 1)]
    rw [show i + 1 + rest.length = i + (a :: rest).length by simp; omega]
    simp [enumMapRows]

lemma enumMapRows_congr {α β : Type} {g g' : ℕ → α → List β} :
    ∀ (l : List α) (i : ℕ), (∀ j a, i ≤ j → j < i + l.length → g j a = g' j a) →
      enumMapRows g i l = enumMapRows g' i l := by
  intro l
  induction l with
  | nil => intro i _; rfl
  | cons a rest ih =>
    intro i h
    show g i a ++ enumMapRows g (i + 1) rest = g' i a ++ enumMapRows g' (i + 1) rest
    rw [h i a le_rfl (by simp), ih (i + 1) (fun j b hj1 hj2 => h j b (by omega)
      (by simp only [List.length_cons]; omega))]

lemma enumMapRows_shift {α β : Type} (g : ℕ → α → List β) (n : ℕ) :
    ∀ (l : List α) (i : ℕ),
      enumMapRows g (i + n) l = enumMapRows (fun j a => g (j + n) a) i l := by
  intro l
  induction l with
  | nil => intro i; rfl
  | cons a rest ih =>
    intro i
    show g (i + n) a ++ enumMapRows g (i + n + 1) rest = g (i + n) a ++ _
    rw [show i + n + 1 = i + 1 + n by omega, ih (i + 1)]

lemma enumMapRows_map {α β γ : Type} (g : ℕ → β → List γ) (h : α → β) :
    ∀ (l : List α) (i : ℕ),
      enumMapRows g i (l.map h) = enumMapRows (fun j a => g j (h a)) i l := by
  intro l
  induction l with
  | nil => intro i; rfl
  | cons a rest ih =>
    intro i
    show g i (h a) ++ enumMapRows g (i + 1) (rest.map h) = g i (h a) ++ _
    rw [ih (i + 1)]

lemma enumMapRows_range' {α : Type} (g : ℕ → ℕ → List α) :
    ∀ (n s : ℕ), enumMapRows g s (List.range' s n)
      = (List.range' s n).flatMap (fun i => g i i) := by
  intro n
  induction n with
  | zero => intro s; rfl
  | succ n ih =>
    intro s
    rw [List.range'_succ]
    show g s s ++ enumMapRows g (s + 1) (List.range' (s + 1) n) = _
    rw [ih (s + 1), List.flatMap_cons]

lemma enumMapRows_range {α : Type} (g : ℕ → ℕ → List α) (n : ℕ) :
    enumMapRows g 0 (List.range n) = (List.range n).flatMap (fun i => g i i) := by
  rw [List.range_eq_range']
  exact enumMapRows_range' g n 0

lemma enumMapChunks_eq_rows {α β : Type} (f : ℕ → ℕ → α → List β) :
    ∀ (cl : List (List α)) (c0 : ℕ),
      enumMapChunks f c0 cl
        = enumMapRows (fun ci c => enumMapRows (f ci) 0 c) c0 cl := by
  intro cl
  induction cl with
  | nil => intro c0; rfl
  | cons c rest ih =>
    intro c0
    show enumMapRows (f c0) 0 c ++ enumMapChunks f (c0 + 1) rest = _
    rw [ih (c0 + 1)]
    rfl

lemma enumMapChunks_chunksOf {α β : Type} (f : ℕ → ℕ → α → List β) (cs : ℕ)
    (hcs : 0 < cs) :
    ∀ (n : ℕ) (l : List α), l.length ≤ n → ∀ (c0 : ℕ),
      enumMapChunks f c0 (chunksOf cs l)
        = enumMapRows (fun i a => f (c0 + i / cs) (i % cs) a) 0 l := by
  intro n
  induction n with
  | zero =>
    intro l hl c0
    have : l = [] := List.eq_nil_of_length_eq_zero (Nat.le_zero.mp hl)
    subst this
    rfl
  | succ n ih =>
    intro l hl c0
    cases l with
    | nil => rfl
    | cons a rest =>
      rw [chunksOf_cons cs (by omega) a rest]
      show enumMapRows (f c0) 0 (List.take cs (a :: rest))
          ++ enumMapChunks f (c0 + 1) (chunksOf cs (List.drop cs (a :: rest)))
        = enumMapRows (fun i a => f (c0 + i / cs) (i % cs) a) 0 (a :: rest)
      rw [ih (List.drop cs (a :: rest))
        (by simp only [List.length_drop, List.length_cons]
            simp only [List.length_cons] at hl
            omega) (c0 + 1)]
      conv_rhs => rw [← List.take_append_drop cs (a :: rest)]
      rw [enumMapRows_append]
      congr 1
      · apply enumMapRows_congr
        intro j b hj1 hj2
        have h1 : (List.take cs (a :: rest)).length ≤ cs := List.length_take_le cs (a :: rest)
        have hjcs : j < cs := lt_of_lt_of_le (by omega) h1
        rw [Nat.div_eq_of_lt hjcs, Nat.mod_eq_of_lt hjcs, Nat.add_zero]
      · cases hdrop : List.drop cs (a :: rest) with
        | nil => rfl
        | cons b rest' =>
          have hcslen : cs < (a :: rest).length := by
            by_contra hcon
            have hnil : List.drop cs (a :: rest) = [] := List.drop_eq_nil_of_le (by omega)
            rw [hdrop] at hnil
            exact List.noConfusion hnil
          have hlen : (List.take cs (a :: rest)).length = cs := by
            rw [List.length_take]
            exact min_eq_left (by omega)
          rw [← hdrop, hlen]
          conv_rhs => rw [enumMapRows_shift]
          apply enumMapRows_congr
          intro j b _ _
          rw [Nat.add_div_right j hcs, Nat.add_mod_right j cs]
          rw [show c0 + (j / cs + 1) = c0 + 1 + j / cs by omega]

lemma flatMap_ite_not_mem {β : Type} (i₀ : ℕ) (ws : List β) :
    ∀ l : List ℕ, i₀ ∉ l → (l.flatMap fun i => if i = i₀ then ws else []) = [] := by
  intro l
  induction l with
  | nil => intro _; rfl
  | cons a rest ih =>
    intro h
    rw [List.flatMap_cons, if_neg (by intro hc; subst hc; exact h (List.mem_cons_self a rest)),
      ih (fun hc => h (List.mem_cons_of_mem a hc))]
    rfl

lemma flatMap_ite_single {β : Type} (i₀ : ℕ) (ws : List β) :
    ∀ l : List ℕ, l.Nodup → i₀ ∈ l →
      (l.flatMap fun i => if i = i₀ then ws else []) = ws := by
  intro l
  induction l with
  | nil => intro _ h; simp at h
  | cons a rest ih =>
    intro hnd hmem
    rw [List.flatMap_cons]
    rcases List.nodup_cons.mp hnd with ⟨hna, hndr⟩
    by_cases ha : a = i₀
    · rw [if_pos ha]
      rw [flatMap_ite_not_mem i₀ ws rest (by rw [← ha]; exact hna)]
      simp
    · rw [if_neg ha]
      rw [ih hndr (by rcases List.mem_cons.mp hmem with h | h
                      · exact absurd h.symm ha
                      · exact h)]
      rfl

lemma chunksOf_length {α : Type} (cs : ℕ) (hcs : 0 < cs) :
    ∀ (n : ℕ) (l : List α), l.length ≤ n →
      (chunksOf cs l).length = (l.length + cs - 1) / cs := by
  intro n
  induction n with
  | zero =>
    intro l hl
    have : l = [] := List.eq_nil_of_length_eq_zero (Nat.le_zero.mp hl)
    subst this
    show (0 : ℕ) = (0 + cs - 1) / cs
    rw [Nat.div_eq_of_lt (by omega)]
  | succ n ih =>
    intro l hl
    cases l with
    | nil =>
      show (0 : ℕ) = (0 + cs - 1) / cs
      rw [Nat.div_eq_of_lt (by omega)]
    | cons a rest =>
      rw [chunksOf_cons cs (by omega) a rest, List.length_cons,
        ih (List.drop cs (a :: rest))
          (by simp only [List.length_drop, List.length_cons]
              simp only [List.length_cons] at hl
              omega)]
      simp only [List.length_drop, List.length_cons]
      rcases le_or_lt (rest.length + 1) cs with h | h
      · rw [show rest.length + 1 - cs = 0 by omega]
        rw [Nat.div_eq_of_lt (by omega)]
        rw [show (rest.length + 1 + cs - 1) / cs = 1 from
          Nat.div_eq_of_lt_le (by omega) (by omega)]
      · rw [show rest.length + 1 - cs + cs - 1 = rest.length by omega,
          show rest.length + 1 + cs - 1 = rest.length + cs by omega,
          Nat.add_div_right _ hcs]

lemma div_lt_chunks_bound {i N cs : ℕ} (hcs : 0 < cs) (hi : i < N) :
    i / cs < (N + cs - 1) / cs := by
  have h1 : i / cs ≤ (N - 1) / cs := Nat.div_le_div_right (by omega)
  have h2 : (N + cs - 1) / cs = (N - 1) / cs + 1 := by
    rw [show N + cs - 1 = (N - 1) + cs by omega, Nat.add_div_right _ hcs]
  omega

lemma getD_map_range {β : Type} (f : ℕ → β) (n k : ℕ) (d : β) (hk : k < n) :
    ((List.range n).map f).getD k d = f k := by
  rw [List.getD_eq_getElem?_getD, List.getElem?_map, List.getElem?_range hk]
  rfl

/-- Shared helper: the trace of cell writes of a full (not preassigned) table
layout, flattened to one pair of writes per linear coordinate `i` of the
domain: the input cell `(i / col_size, i % col_size)` receives the encoded
domain value scaled by its chunk's selector multiplier, the output cell the
nonlinearity value scaled the same way. -/
lemma table_layout_writes_flat {p : ℕ} (t : TableM p) (hcs : 0 < t.col_size) :
    t.layout_writes false
      = (List.range ((t.range.2 - t.range.1 + 1).toNat)).flatMap (fun i =>
          [⟨true, i / t.col_size, i % t.col_size,
             i64_to_felt p (t.range.1 + (i : ℤ))
               * t.selector_constructor.get_selector_val_at_idx (i / t.col_size)⟩,
           ⟨false, i / t.col_size, i % t.col_size,
             t.nonlinearity (i64_to_felt p (t.range.1 + (i : ℤ)))
               * t.selector_constructor.get_selector_val_at_idx (i / t.col_size)⟩]) := by
  simp only [TableM.layout_writes]
  rw [enumMapChunks_chunksOf _ t.col_size hcs _ _ le_rfl 0]
  rw [enumMapRows_map]
  rw [enumMapRows_range]
  apply List.flatMap_congr
  intro i hi
  rw [List.mem_range] at hi
  have hlen : ((List.range ((t.range.2 - t.range.1 + 1).toNat)).map
      (fun (k : ℕ) => i64_to_felt p (t.range.1 + (k : ℤ)))).length
      = (t.range.2 - t.range.1 + 1).toNat := by
    rw [List.length_map, List.length_range]
  have hchunklen : (chunksOf t.col_size ((List.range ((t.range.2 - t.range.1 + 1).toNat)).map
      (fun (k : ℕ) => i64_to_felt p (t.range.1 + (k : ℤ))))).length
      = ((t.range.2 - t.range.1 + 1).toNat + t.col_size - 1) / t.col_size := by
    rw [chunksOf_length t.col_size hcs _ _ le_rfl, hlen]
  simp only [Bool.false_eq_true, if_false, Nat.zero_add, List.nil_append,
    TableM.cartesian_coord, List.map_map]
  rw [hchunklen]
  rw [getD_map_range _ _ _ _ (div_lt_chunks_bound hcs hi)]
  rw [Nat.mod_add_div' i t.col_size]
  rw [getD_map_range _ _ _ _ hi]
  rfl

/-- Value stored at one side/column/row position of the lookup table after a
trace of cell writes: the last write at that position, if any. -/
def cell_value {p : ℕ} (ws : List (CellWrite p)) (is_in : Bool) (x y : ℕ) :
    Option (ZMod p) :=
  ((ws.filter (fun w => w.is_input == is_in && w.col == x && w.row == y)).getLast?).map
    (fun w => w.val)

lemma assign_all_none_writes {p : ℕ} : ∀ (ws : List (CellWrite p)) (ly : LayouterM p),
    (assign_all ly ws).1 = none → (assign_all ly ws).2.writes = ly.writes ++ ws := by
  intro ws
  induction ws with
  | nil => intro ly _; simp [assign_all]
  | cons w rest ih =>
    intro ly h
    unfold assign_all at h ⊢
    rw [List.foldl_cons] at h ⊢
    by_cases hf : ly.fail_at = some ly.writes.length
    · rw [show assign_step ((none : Option LayoutError), ly) w = (some .plonk, ly) by
        simp [assign_step, LayouterM.assign_cell, hf]] at h
      rw [foldl_assign_step_error] at h
      simp at h
    · rw [show assign_step ((none : Option LayoutError), ly) w
          = (none, ⟨ly.writes ++ [w], ly.fail_at⟩) by
        simp [assign_step, LayouterM.assign_cell, hf]] at h ⊢
      have h2 := ih ⟨ly.writes ++ [w], ly.fail_at⟩ h
      rw [show List.foldl assign_step
            ((none : Option LayoutError), (⟨ly.writes ++ [w], ly.fail_at⟩ : LayouterM p)) rest
          = assign_all ⟨ly.writes ++ [w], ly.fail_at⟩ rest from rfl, h2]
      simp

/-- Shared helper: a successful table layout appends exactly the layout write
trace to the layouter. -/
lemma table_layout_ok_writes {p : ℕ} (t : TableM p) (ly : LayouterM p) (pre : Bool)
    (h : (t.layout ly pre).1 = .ok ()) :
    (t.layout ly pre).2.2.writes = ly.writes ++ t.layout_writes pre := by
  unfold TableM.layout at h ⊢
  by_cases ht : t.is_assigned
  · rw [if_pos ht] at h
    exact Except.noConfusion h
  · rw [if_neg ht] at h ⊢
    rcases hres : assign_all ly (t.layout_writes pre) with ⟨e, ly'⟩
    cases e with
    | none =>
      have h2 := assign_all_none_writes (t.layout_writes pre) ly (by rw [hres])
      rw [hres] at h2
      exact h2
    | some e =>
      rw [hres] at h
      exact Except.noConfusion h

/-- Shared helper: the input and output cells at the cartesian coordinates of
linear coordinate `i₀` hold the scaled domain value and scaled nonlinearity
value, each written exactly once. -/
lemma table_layout_cell_values {p : ℕ} (t : TableM p) (hcs : 0 < t.col_size) (i₀ : ℕ)
    (hi₀ : i₀ < (t.range.2 - t.range.1 + 1).toNat) :
    cell_value (t.layout_writes false) true (i₀ / t.col_size) (i₀ % t.col_size)
      = some (i64_to_felt p (t.range.1 + (i₀ : ℤ))
          * t.selector_constructor.get_selector_val_at_idx (i₀ / t.col_size))
    ∧ cell_value (t.layout_writes false) false (i₀ / t.col_size) (i₀ % t.col_size)
      = some (t.nonlinearity (i64_to_felt p (t.range.1 + (i₀ : ℤ)))
          * t.selector_constructor.get_selector_val_at_idx (i₀ / t.col_size)) := by
  have hne : ∀ i : ℕ, i ≠ i₀ →
      ¬(i / t.col_size = i₀ / t.col_size ∧ i % t.col_size = i₀ % t.col_size) := by
    rintro i h ⟨h1, h2⟩
    apply h
    have e1 := Nat.div_add_mod i t.col_size
    have e2 := Nat.div_add_mod i₀ t.col_size
    rw [h1, h2] at e1
    rw [← e1]
    exact e2
  rw [table_layout_writes_flat t hcs]
  constructor
  · unfold cell_value
    rw [List.filter_flatMap]
    have hcongr : ∀ i ∈ List.range ((t.range.2 - t.range.1 + 1).toNat),
        List.filter
          (fun w => w.is_input == true && w.col == i₀ / t.col_size
            && w.row == i₀ % t.col_size)
          [⟨true, i / t.col_size, i % t.col_size,
             i64_to_felt p (t.range.1 + (i : ℤ))
               * t.selector_constructor.get_selector_val_at_idx (i / t.col_size)⟩,
           ⟨false, i / t.col_size, i % t.col_size,
             t.nonlinearity (i64_to_felt p (t.range.1 + (i : ℤ)))
               * t.selector_constructor.get_selector_val_at_idx (i / t.col_size)⟩]
        = (fun i => if i = i₀ then
            [(⟨true, i₀ / t.col_size, i₀ % t.col_size,
              i64_to_felt p (t.range.1 + (i₀ : ℤ))
                * t.selector_constructor.get_selector_val_at_idx (i₀ / t.col_size)⟩
              : CellWrite p)]
            else []) i := by
      intro i _
      by_cases h : i = i₀
      · subst h
        simp [List.filter_cons]
      · rcases eq_or_ne (i / t.col_size) (i₀ / t.col_size) with h1 | h1
        · have h2 : i % t.col_size ≠ i₀ % t.col_size := fun h2 => hne i h ⟨h1, h2⟩
          simp [List.filter_cons, h, h1, h2]
        · simp [List.filter_cons, h, h1]
    rw [List.flatMap_congr hcongr]
    rw [flatMap_ite_single _ _ _ (List.nodup_range _) (List.mem_range.mpr hi₀)]
    rfl
  · unfold cell_value
    rw [List.filter_flatMap]
    have hcongr : ∀ i ∈ List.range ((t.range.2 - t.range.1 + 1).toNat),
        List.filter
          (fun w => w.is_input == false && w.col == i₀ / t.col_size
            && w.row == i₀ % t.col_size)
          [⟨true, i / t.col_size, i % t.col_size,
             i64_to_felt p (t.range.1 + (i : ℤ))
               * t.selector_constructor.get_selector_val_at_idx (i / t.col_size)⟩,
           ⟨false, i / t.col_size, i % t.col_size,
             t.nonlinearity (i64_to_felt p (t.range.1 + (i : ℤ)))
               * t.selector_constructor.get_selector_val_at_idx (i / t.col_size)⟩]
        = (fun i => if i = i₀ then
            [(⟨false, i₀ / t.col_size, i₀ % t.col_size,
              t.nonlinearity (i64_to_felt p (t.range.1 + (i₀ : ℤ)))
                * t.selector_constructor.get_selector_val_at_idx (i₀ / t.col_size)⟩
              : CellWrite p)]
            else []) i := by
      intro i _
      by_cases h : i = i₀
      · subst h
        simp [List.filter_cons]
      · rcases eq_or_ne (i / t.col_size) (i₀ / t.col_size) with h1 | h1
        · have h2 : i % t.col_size ≠ i₀ % t.col_size := fun h2 => hne i h ⟨h1, h2⟩
          simp [List.filter_cons, h, h1, h2]
        · simp [List.filter_cons, h, h1]
    rw [List.flatMap_congr hcongr]
    rw [flatMap_ite_single _ _ _ (List.nodup_range _) (List.mem_range.mpr hi₀)]
    rfl

/-- C2.  Table layout round-trip: for every integer `v` in the closed range
`(lo, hi)`, after a successful `Table::layout` (started from an empty
layouter) the cell at the row holding `v` — linear coordinate `v - lo`
mapped through `cartesian_coord` — contains the pair
`(v·m, nonlinearity(v)·m)` where `m = get_selector_val_at_idx(chunk)` is the
multiplier of the chunk containing `v`; `m` is nonzero (for chunk indices
within the selector degree, which is at most the field characteristic) and
dividing by `m` recovers `(v, nonlinearity(v))` exactly. -/
theorem table_layout_roundtrip {p : ℕ} [Fact p.Prime] (t : TableM p) (v : ℤ) (fa : Option ℕ)
    (hassigned : t.is_assigned = false) (hcs : 0 < t.col_size)
    (hlo : t.range.1 ≤ v) (hhi : v ≤ t.range.2)
    (hdeg : (v - t.range.1).toNat / t.col_size < t.selector_constructor.degree)
    (hdp : t.selector_constructor.degree ≤ p)
    (hok : (t.layout ⟨[], fa⟩ false).1 = .ok ()) :
    cell_value (t.layout ⟨[], fa⟩ false).2.2.writes true
        (t.cartesian_coord (v - t.range.1).toNat).1
        (t.cartesian_coord (v - t.range.1).toNat).2
      = some (i64_to_felt p v
          * t.selector_constructor.get_selector_val_at_idx
              ((t.cartesian_coord (v - t.range.1).toNat).1))
    ∧ cell_value (t.layout ⟨[], fa⟩ false).2.2.writes false
        (t.cartesian_coord (v - t.range.1).toNat).1
        (t.cartesian_coord (v - t.range.1).toNat).2
      = some (t.nonlinearity (i64_to_felt p v)
          * t.selector_constructor.get_selector_val_at_idx
              ((t.cartesian_coord (v - t.range.1).toNat).1))
    ∧ t.selector_constructor.get_selector_val_at_idx
        ((t.cartesian_coord (v - t.range.1).toNat).1) ≠ 0
    ∧ (i64_to_felt p v
          * t.selector_constructor.get_selector_val_at_idx
              ((t.cartesian_coord (v - t.range.1).toNat).1))
        * (t.selector_constructor.get_selector_val_at_idx
            ((t.cartesian_coord (v - t.range.1).toNat).1))⁻¹
      = i64_to_felt p v
    ∧ (t.nonlinearity (i64_to_felt p v)
          * t.selector_constructor.get_selector_val_at_idx
              ((t.cartesian_coord (v - t.range.1).toNat).1))
        * (t.selector_constructor.get_selector_val_at_idx
            ((t.cartesian_coord (v - t.range.1).toNat).1))⁻¹
      = t.nonlinearity (i64_to_felt p v) := by
  have hwr : (t.layout ⟨[], fa⟩ false).2.2.writes = t.layout_writes false := by
    have h2 := table_layout_ok_writes t ⟨[], fa⟩ false hok
    simpa using h2
  rw [hwr]
  have hi₀ : (v - t.range.1).toNat < (t.range.2 - t.range.1 + 1).toNat := by omega
  obtain ⟨hin, hout⟩ := table_layout_cell_values t hcs _ hi₀
  have hv : t.range.1 + (((v - t.range.1).toNat : ℕ) : ℤ) = v := by omega
  rw [hv] at hin hout
  have hm : t.selector_constructor.get_selector_val_at_idx
      ((t.cartesian_coord (v - t.range.1).toNat).1) ≠ 0 :=
    get_selector_val_at_idx_ne_zero hdp hdeg
  exact ⟨hin, hout, hm, mul_inv_cancel_right₀ hm _, mul_inv_cancel_right₀ hm _⟩

/-- Concrete instantiation of `table_layout_roundtrip` at `p = 7`, squaring
nonlinearity, `range = (0, 3)`, `col_size = 2` (two chunks of degree 2),
`v = 3`: row `(1, 1)` holds `(3·1, 9·1) = (3, 2)` in `ZMod 7`. -/
theorem table_layout_roundtrip_witness :
    cell_value ((⟨fun x => x * x, [0, 1], 2, [2, 3], ⟨2⟩, false, ((0 : ℤ), (3 : ℤ))⟩
          : TableM 7).layout ⟨[], none⟩ false).2.2.writes true 1 1
      = some 3
    ∧ cell_value ((⟨fun x => x * x, [0, 1], 2, [2, 3], ⟨2⟩, false, ((0 : ℤ), (3 : ℤ))⟩
          : TableM 7).layout ⟨[], none⟩ false).2.2.writes false 1 1
      = some 2
    ∧ (⟨2⟩ : SelectorConstructor 7).get_selector_val_at_idx 1 ≠ 0 := by
  haveI : Fact (Nat.Prime 7) := ⟨by norm_num⟩
  obtain ⟨h1, h2, h3, _, _⟩ := table_layout_roundtrip
    (⟨fun x => x * x, [0, 1], 2, [2, 3], ⟨2⟩, false, ((0 : ℤ), (3 : ℤ))⟩ : TableM 7)
    3 none rfl (by decide) (by decide) (by decide) (by decide) (by decide) (by decide)
  exact ⟨h1, h2, h3⟩

/-- Models `CheckMode` (chip.rs lines 59-63). -/
inductive CheckMode where
  | SAFE : CheckMode
  | UNSAFE : CheckMode
deriving DecidableEq

/-- Modelled from the spec: `VarTensor` (tensor module, not under src/), the
external column-handle collaborator of §3: an advice grid with its shape
queries, a dummy variant, or the empty placeholder. -/
inductive VarTensorM where
  | advice : ℕ → ℕ → ℕ → VarTensorM
  | dummyVar : ℕ → ℕ → VarTensorM
  | empty : VarTensorM
deriving DecidableEq

/-- Modelled from the spec: the `is_advice` predicate of the column handle. -/
def VarTensorM.is_advice : VarTensorM → Bool
  | .advice _ _ _ => true
  | _ => false

/-- Modelled from the spec: the `num_blocks` shape query of the column
handle. -/
def VarTensorM.num_blocks : VarTensorM → ℕ
  | .advice b _ _ => b
  | .dummyVar b _ => b
  | .empty => 0

/-- Modelled from the spec: the `num_inner_cols` shape query of the column
handle. -/
def VarTensorM.num_inner_cols : VarTensorM → ℕ
  | .advice _ c _ => c
  | .dummyVar _ c => c
  | .empty => 0

/-- Modelled from the spec: the `num_cols` shape query of the column handle,
kept as an independent datum of the advice variant. -/
def VarTensorM.num_cols : VarTensorM → ℕ
  | .advice _ _ n => n
  | _ => 0

/-- Models the slice of `BaseOp` (ops/base.rs, not under src/) that
`BaseConfig::configure` enumerates: four non-accumulating and six
accumulating operations. -/
inductive BaseOp where
  | Add | Sub | Mult | IsBoolean
  | DotInit | Dot | CumProd | CumProdInit | Sum | SumInit
deriving DecidableEq

/-- Models `CustomGates` (chip.rs lines 283-290); selectors are the key-to-
identifier association list built at configure time. -/
structure CustomGatesM where
  inputs : List VarTensorM
  output : VarTensorM
  selectors : List ((BaseOp × ℕ × ℕ) × ℕ)

/-- Models `StaticLookups<F>` (chip.rs lines 253-264); lookup operations are
identified by an opaque `ℕ` key. -/
structure StaticLookupsM (p : ℕ) where
  selectors : List ((ℕ × ℕ × ℕ) × ℕ)
  tables : List (ℕ × TableM p)
  index : VarTensorM
  output : VarTensorM
  input : VarTensorM

/-- Models `DynamicLookups` (chip.rs lines 193-202). -/
structure DynamicLookupsM where
  lookup_selectors : List ((ℕ × ℕ) × ℕ)
  table_selectors : List ℕ
  inputs : List VarTensorM
  tables : List VarTensorM

/-- Models `Shuffles` (chip.rs lines 225-234). -/
structure ShufflesM where
  input_selectors : List ((ℕ × ℕ) × ℕ)
  reference_selectors : List ℕ
  inputs : List VarTensorM
  references : List VarTensorM

/-- Models `RangeChecks<F>` (chip.rs lines 306-315). -/
structure RangeChecksM (p : ℕ) where
  selectors : List (((ℤ × ℤ) × ℕ × ℕ) × ℕ)
  ranges : List ((ℤ × ℤ) × RangeCheckM p)
  index : VarTensorM
  input : VarTensorM

/-- Models `BaseConfig<F>` (chip.rs lines 332-346). -/
structure BaseConfigM (p : ℕ) where
  custom_gates : CustomGatesM
  static_lookups : StaticLookupsM p
  dynamic_lookups : DynamicLookupsM
  range_checks : RangeChecksM p
  shuffles : ShufflesM
  check_mode : CheckMode

/-- Models a run of `meta.selector()` / `cs.complex_selector()` allocations:
`n` consecutive selector identifiers. -/
def ConstraintSystemM.alloc_selectors (cs : ConstraintSystemM) (n : ℕ) :
    List ℕ × ConstraintSystemM :=
  ((List.range n).map (fun k => cs.next_selector + k),
    { cs with next_selector := cs.next_selector + n })

/-- Models `BaseConfig::configure` (chip.rs lines 368-499): a selector per
non-accumulating op and `(block, inner column)` of the output, a selector per
accumulating op and block (inner column fixed at 0), one gate registered per
selector; a column-count mismatch between the inputs, or between input and
output, is only warned about and has no effect on the result. -/
def BaseConfigM.configure {p : ℕ} (meta : ConstraintSystemM)
    (inputs : VarTensorM × VarTensorM) (output : VarTensorM)
    (check_mode : CheckMode) : BaseConfigM p × ConstraintSystemM :=
  let nonaccum_keys : List (BaseOp × ℕ × ℕ) :=
    (List.range output.num_blocks).flatMap (fun i =>
      (List.range output.num_inner_cols).flatMap (fun j =>
        [(BaseOp.Add, i, j), (BaseOp.Sub, i, j), (BaseOp.Mult, i, j),
         (BaseOp.IsBoolean, i, j)]))
  let accum_keys : List (BaseOp × ℕ × ℕ) :=
    (List.range output.num_blocks).flatMap (fun i =>
      [(BaseOp.DotInit, i, 0), (BaseOp.Dot, i, 0), (BaseOp.CumProd, i, 0),
       (BaseOp.CumProdInit, i, 0), (BaseOp.Sum, i, 0), (BaseOp.SumInit, i, 0)])
  let s0 := meta.alloc_selectors nonaccum_keys.length
  let s1 := s0.2.alloc_selectors accum_keys.length
  let cs2 := { s1.2 with
    num_gates := s1.2.num_gates + nonaccum_keys.length + accum_keys.length }
  ({ custom_gates :=
       { inputs := [inputs.1, inputs.2],
         output := output,
         selectors := nonaccum_keys.zip s0.1 ++ accum_keys.zip s1.1 },
     static_lookups := ⟨[], [], .empty, .empty, .empty⟩,
     dynamic_lookups := ⟨[], [], [], []⟩,
     shuffles := ⟨[], [], [], []⟩,
     range_checks := ⟨[], [], .empty, .empty⟩,
     check_mode := check_mode }, cs2)

lemma length_flatMap_const {α β : Type} (f : α → List β) (c : ℕ)
    (h : ∀ a, (f a).length = c) :
    ∀ l : List α, (l.flatMap f).length = l.length * c := by
  intro l
  induction l with
  | nil => simp
  | cons a rest ih =>
    rw [List.flatMap_cons, List.length_append, h a, ih, List.length_cons]
    ring

/-- C8.  Warning-not-failure: even when the two input `VarTensor`s disagree
on column count, or the inputs disagree with the output, `BaseConfig::configure`
still returns a fully populated configuration — the complete selector set for
all ops over the output grid, the given inputs, output and check mode — and
never a configuration failure. -/
theorem base_configure_tolerates_mismatch {p : ℕ} (meta : ConstraintSystemM)
    (inputs : VarTensorM × VarTensorM) (output : VarTensorM) (check_mode : CheckMode)
    (hmismatch : inputs.1.num_cols ≠ inputs.2.num_cols
      ∨ inputs.1.num_cols ≠ output.num_cols) :
    (BaseConfigM.configure meta inputs output check_mode
        : BaseConfigM p × ConstraintSystemM).1.custom_gates.selectors.length
      = output.num_blocks * output.num_inner_cols * 4 + output.num_blocks * 6
    ∧ (BaseConfigM.configure meta inputs output check_mode
        : BaseConfigM p × ConstraintSystemM).1.custom_gates.inputs
      = [inputs.1, inputs.2]
    ∧ (BaseConfigM.configure meta inputs output check_mode
        : BaseConfigM p × ConstraintSystemM).1.custom_gates.output = output
    ∧ (BaseConfigM.configure meta inputs output check_mode
        : BaseConfigM p × ConstraintSystemM).1.check_mode = check_mode := by
  refine ⟨?_, rfl, rfl, rfl⟩
  have hinner : ∀ i : ℕ, ((fun i =>
      (List.range output.num_inner_cols).flatMap (fun j =>
        [(BaseOp.Add, i, j), (BaseOp.Sub, i, j), (BaseOp.Mult, i, j),
         (BaseOp.IsBoolean, i, j)])) i).length = output.num_inner_cols * 4 := by
    intro i
    rw [length_flatMap_const
      (fun j => [(BaseOp.Add, i, j), (BaseOp.Sub, i, j), (BaseOp.Mult, i, j),
        (BaseOp.IsBoolean, i, j)]) 4 (fun j => rfl) (List.range output.num_inner_cols),
      List.length_range]
  have hnon : ((List.range output.num_blocks).flatMap (fun i =>
      (List.range output.num_inner_cols).flatMap (fun j =>
        [(BaseOp.Add, i, j), (BaseOp.Sub, i, j), (BaseOp.Mult, i, j),
         (BaseOp.IsBoolean, i, j)]))).length
      = output.num_blocks * (output.num_inner_cols * 4) := by
    rw [length_flatMap_const (fun i =>
      (List.range output.num_inner_cols).flatMap (fun j =>
        [(BaseOp.Add, i, j), (BaseOp.Sub, i, j), (BaseOp.Mult, i, j),
         (BaseOp.IsBoolean, i, j)])) (output.num_inner_cols * 4) hinner
      (List.range output.num_blocks), List.length_range]
  have hacc : ((List.range output.num_blocks).flatMap (fun i =>
      [(BaseOp.DotInit, i, 0), (BaseOp.Dot, i, 0), (BaseOp.CumProd, i, 0),
       (BaseOp.CumProdInit, i, 0), (BaseOp.Sum, i, 0), (BaseOp.SumInit, i, 0)])).length
      = output.num_blocks * 6 := by
    rw [length_flatMap_const (fun i =>
      [(BaseOp.DotInit, i, 0), (BaseOp.Dot, i, 0), (BaseOp.CumProd, i, 0),
       (BaseOp.CumProdInit, i, 0), (BaseOp.Sum, i, 0), (BaseOp.SumInit, i, 0)]) 6
      (fun i => rfl) (List.range output.num_blocks), List.length_range]
  simp only [BaseConfigM.configure, ConstraintSystemM.alloc_selectors,
    List.length_append, List.length_zip, List.length_map, List.length_range]
  rw [hnon, hacc]
  simp [Nat.mul_assoc]

/-- Concrete instantiation of `base_configure_tolerates_mismatch` with input
column counts 2 and 3 and an output of 2 blocks and 2 inner columns. -/
theorem base_configure_tolerates_mismatch_witness :
    (BaseConfigM.configure ⟨1, 0, 0, 0, 0⟩ (.advice 1 1 2, .advice 1 1 3)
        (.advice 2 2 2) CheckMode.SAFE
        : BaseConfigM 5 × ConstraintSystemM).1.custom_gates.selectors.length
      = 2 * 2 * 4 + 2 * 6
    ∧ (BaseConfigM.configure ⟨1, 0, 0, 0, 0⟩ (.advice 1 1 2, .advice 1 1 3)
        (.advice 2 2 2) CheckMode.SAFE
        : BaseConfigM 5 × ConstraintSystemM).1.custom_gates.inputs
      = [.advice 1 1 2, .advice 1 1 3]
    ∧ (BaseConfigM.configure ⟨1, 0, 0, 0, 0⟩ (.advice 1 1 2, .advice 1 1 3)
        (.advice 2 2 2) CheckMode.SAFE
        : BaseConfigM 5 × ConstraintSystemM).1.custom_gates.output = .advice 2 2 2
    ∧ (BaseConfigM.configure ⟨1, 0, 0, 0, 0⟩ (.advice 1 1 2, .advice 1 1 3)
        (.advice 2 2 2) CheckMode.SAFE
        : BaseConfigM 5 × ConstraintSystemM).1.check_mode = CheckMode.SAFE :=
  base_configure_tolerates_mismatch ⟨1, 0, 0, 0, 0⟩ (.advice 1 1 2, .advice 1 1 3)
    (.advice 2 2 2) CheckMode.SAFE (Or.inl (by decide))

/-- Models `BaseConfig::configure_lookup` (chip.rs lines 503-644): validates
that index, input and output are advice columns; when the nonlinearity is
already registered, returns success immediately with nothing mutated;
otherwise configures a fresh table (reusing the first registered table's
input columns when one exists), registers it, allocates one complex selector
per `(block, inner column)` of the input with one lookup argument per table
column, and initialises the registry's input/output/index handles if still
empty. -/
def BaseConfigM.configure_lookup {p : ℕ} (cfg : BaseConfigM p)
    (cs : ConstraintSystemM) (input output index : VarTensorM)
    (lookup_range : ℤ × ℤ) (logrows : ℕ) (nl : ℕ) (nlf : ZMod p → ZMod p) :
    Except String (BaseConfigM p × ConstraintSystemM) :=
  if ¬ index.is_advice then .error "wrong input type for lookup index"
  else if ¬ input.is_advice then .error "wrong input type for lookup input"
  else if ¬ output.is_advice then .error "wrong input type for lookup output"
  else if cfg.static_lookups.tables.any (fun kv => kv.1 == nl) then .ok (cfg, cs)
  else
    let tconf := match cfg.static_lookups.tables.head? with
      | some kv => TableM.configure cs lookup_range logrows nlf (some kv.2.table_inputs)
      | none => TableM.configure cs lookup_range logrows nlf none
    let table := tconf.1
    let keys : List (ℕ × ℕ × ℕ) :=
      (List.range input.num_blocks).flatMap (fun x =>
        (List.range input.num_inner_cols).map (fun y => (nl, x, y)))
    let salloc := tconf.2.alloc_selectors keys.length
    let cs2 := { salloc.2 with
      num_lookups := salloc.2.num_lookups + keys.length * table.table_inputs.length }
    let sl := cfg.static_lookups
    .ok ({ cfg with static_lookups :=
      { selectors := sl.selectors ++ keys.zip salloc.1,
        tables := sl.tables ++ [(nl, table)],
        input := match sl.input with | .empty => input | other => other,
        output := match sl.output with | .empty => output | other => other,
        index := match sl.index with | .empty => index | other => other } }, cs2)

/-- C5.  Deduplication idempotence: invoking `configure_lookup` with a
nonlinearity already present in the `StaticLookups` registry (and valid
advice columns, as on the call that registered it) returns success without
mutating anything: configuration and constraint system are returned
unchanged, so in particular the registry's selector count and table count
are unchanged. -/
theorem configure_lookup_idempotent {p : ℕ} (cfg : BaseConfigM p)
    (cs : ConstraintSystemM) (input output index : VarTensorM)
    (lookup_range : ℤ × ℤ) (logrows : ℕ) (nl : ℕ) (nlf : ZMod p → ZMod p)
    (hidx : index.is_advice = true) (hin : input.is_advice = true)
    (hout : output.is_advice = true)
    (hmem : cfg.static_lookups.tables.any (fun kv => kv.1 == nl) = true) :
    cfg.configure_lookup cs input output index lookup_range logrows nl nlf
      = .ok (cfg, cs) := by
  unfold BaseConfigM.configure_lookup
  rw [hidx, hin, hout, hmem]
  simp

/-- Concrete instantiation of `configure_lookup_idempotent`: a registry
already holding nonlinearity `0`. -/
theorem configure_lookup_idempotent_witness :
    BaseConfigM.configure_lookup
      (⟨⟨[], .empty, []⟩,
        ⟨[((0, 0, 0), 0)], [(0, ⟨fun x => x, [0], 2, [1], ⟨1⟩, false, ((0 : ℤ), (1 : ℤ))⟩)],
          .advice 1 1 1, .advice 1 1 1, .advice 1 1 1⟩,
        ⟨[], [], [], []⟩, ⟨[], [], .empty, .empty⟩, ⟨[], [], [], []⟩,
        CheckMode.SAFE⟩ : BaseConfigM 5)
      ⟨1, 2, 1, 1, 0⟩ (.advice 1 1 1) (.advice 1 1 1) (.advice 1 1 1)
      ((0 : ℤ), (1 : ℤ)) 3 0 (fun x => x)
      = .ok
        ((⟨⟨[], .empty, []⟩,
          ⟨[((0, 0, 0), 0)], [(0, ⟨fun x => x, [0], 2, [1], ⟨1⟩, false, ((0 : ℤ), (1 : ℤ))⟩)],
            .advice 1 1 1, .advice 1 1 1, .advice 1 1 1⟩,
          ⟨[], [], [], []⟩, ⟨[], [], .empty, .empty⟩, ⟨[], [], [], []⟩,
          CheckMode.SAFE⟩ : BaseConfigM 5), ⟨1, 2, 1, 1, 0⟩) :=
  configure_lookup_idempotent _ _ _ _ _ _ _ _ _ rfl rfl rfl (by decide)

/-- Models the dry-run flag of the region cursor (`region.is_dummy()`). -/
structure RegionCtxM where
  is_dummy : Bool

/-- Models the observations `BaseConfig::layout` makes of a `ValTensor`:
whether it still contains formal unknowns (`any_unknowns`). -/
structure ValTensorM where
  any_unknowns : Bool
deriving DecidableEq

/-- Models the operation capability consumed by `BaseConfig::layout`: the
result its own `layout` produces, and its pure-function re-evaluation
`safe_mode_check`. -/
structure OpM where
  layout_result : Except String (Option ValTensorM)
  safe_mode_check : ValTensorM → List ValTensorM → Except String Unit

/-- Models `BaseConfig::layout` (chip.rs lines 953-974): runs the operation's
layout, then — only under `CheckMode::SAFE`, outside a dry run, with a `Some`
output whose value and all input values are fully concrete — re-evaluates the
operation via `safe_mode_check`, propagating its error. -/
def BaseConfigM.layout {p : ℕ} (cfg : BaseConfigM p) (region : RegionCtxM)
    (values : List ValTensorM) (op : OpM) : Except String (Option ValTensorM) :=
  match op.layout_result with
  | .error e => .error e
  | .ok res =>
    if cfg.check_mode = CheckMode.SAFE ∧ region.is_dummy = false then
      match res with
      | some claimed =>
        if !claimed.any_unknowns && values.all (fun v => !v.any_unknowns) then
          match op.safe_mode_check claimed values with
          | .ok _ => .ok res
          | .error e => .error e
        else .ok res
      | none => .ok res
    else .ok res

/-- C3.  Safe-mode self-check: `BaseConfig::layout` consults the operation's
pure re-evaluation exactly when the mode is `SAFE`, the region is not a dry
run, the layout produced `Some` output and the output and all inputs are
fully concrete — in that case a failing check is propagated as the error and
a passing check returns the output; in every other case (unsafe mode, dry
run, no output, or remaining unknowns) the result is the operation's layout
result untouched, so a mismatch is never flagged. -/
theorem base_layout_safe_mode {p : ℕ} (cfg : BaseConfigM p) (region : RegionCtxM)
    (values : List ValTensorM) (op : OpM) :
    (cfg.check_mode = CheckMode.UNSAFE →
      cfg.layout region values op = op.layout_result)
    ∧ (region.is_dummy = true →
      cfg.layout region values op = op.layout_result)
    ∧ (∀ claimed, cfg.check_mode = CheckMode.SAFE → region.is_dummy = false →
        op.layout_result = .ok (some claimed) →
        ((claimed.any_unknowns = false
            ∧ values.all (fun v => !v.any_unknowns) = true →
          cfg.layout region values op
            = match op.safe_mode_check claimed values with
              | .ok _ => .ok (some claimed)
              | .error e => .error e)
        ∧ (claimed.any_unknowns = true
            ∨ values.all (fun v => !v.any_unknowns) = false →
          cfg.layout region values op = .ok (some claimed))))
    ∧ (cfg.check_mode = CheckMode.SAFE → region.is_dummy = false →
        op.layout_result = .ok none →
        cfg.layout region values op = .ok none) := by
  refine ⟨?_, ?_, ?_, ?_⟩
  · intro hu
    unfold BaseConfigM.layout
    rcases hres : op.layout_result with e | res
    · rfl
    · have hcond : ¬ (cfg.check_mode = CheckMode.SAFE ∧ region.is_dummy = false) := by
        rw [hu]
        rintro ⟨h, _⟩
        exact CheckMode.noConfusion h
      simp [hcond]
  · intro hdum
    unfold BaseConfigM.layout
    rcases hres : op.layout_result with e | res
    · rfl
    · have hcond : ¬ (cfg.check_mode = CheckMode.SAFE ∧ region.is_dummy = false) := by
        rw [hdum]
        rintro ⟨_, h⟩
        exact Bool.noConfusion h
      simp [hcond]
  · intro claimed hsafe hdum hres
    constructor
    · rintro ⟨h1, h2⟩
      have hb : (!claimed.any_unknowns && values.all (fun v => !v.any_unknowns)) = true := by
        rw [h1, h2]
        rfl
      unfold BaseConfigM.layout
      rcases hchk : op.safe_mode_check claimed values with e | u <;>
        simp [hres, hsafe, hdum, hb, hchk]
    · intro h
      have hb : (!claimed.any_unknowns && values.all (fun v => !v.any_unknowns)) = false := by
        rcases h with h | h
        · rw [h]
          rfl
        · rw [h, Bool.and_false]
      unfold BaseConfigM.layout
      simp [hres, hsafe, hdum, hb]
  · intro hsafe hdum hres
    unfold BaseConfigM.layout
    simp [hres, hsafe, hdum]

/-- Concrete instantiation of `base_layout_safe_mode`: an operation whose
claimed output fails its pure re-evaluation is rejected under
`CheckMode::SAFE` but passes through untouched under `CheckMode::UNSAFE`. -/
theorem base_layout_safe_mode_witness :
    BaseConfigM.layout
      (⟨⟨[], .empty, []⟩, ⟨[], [], .empty, .empty, .empty⟩, ⟨[], [], [], []⟩,
        ⟨[], [], .empty, .empty⟩, ⟨[], [], [], []⟩, CheckMode.SAFE⟩ : BaseConfigM 5)
      ⟨false⟩ [⟨false⟩]
      ⟨.ok (some ⟨false⟩), fun _ _ => .error "safe mode check failed"⟩
      = .error "safe mode check failed"
    ∧ BaseConfigM.layout
      (⟨⟨[], .empty, []⟩, ⟨[], [], .empty, .empty, .empty⟩, ⟨[], [], [], []⟩,
        ⟨[], [], .empty, .empty⟩, ⟨[], [], [], []⟩, CheckMode.UNSAFE⟩ : BaseConfigM 5)
      ⟨false⟩ [⟨false⟩]
      ⟨.ok (some ⟨false⟩), fun _ _ => .error "safe mode check failed"⟩
      = .ok (some ⟨false⟩) := by
  constructor
  · exact (((base_layout_safe_mode
      (⟨⟨[], .empty, []⟩, ⟨[], [], .empty, .empty, .empty⟩, ⟨[], [], [], []⟩,
        ⟨[], [], .empty, .empty⟩, ⟨[], [], [], []⟩, CheckMode.SAFE⟩ : BaseConfigM 5)
      ⟨false⟩ [⟨false⟩]
      ⟨.ok (some ⟨false⟩), fun _ _ => .error "safe mode check failed"⟩).2.2.1
      ⟨false⟩ rfl rfl rfl).1 ⟨rfl, rfl⟩)
  · exact (base_layout_safe_mode
      (⟨⟨[], .empty, []⟩, ⟨[], [], .empty, .empty, .empty⟩, ⟨[], [], [], []⟩,
        ⟨[], [], .empty, .empty⟩, ⟨[], [], [], []⟩, CheckMode.UNSAFE⟩ : BaseConfigM 5)
      ⟨false⟩ [⟨false⟩]
      ⟨.ok (some ⟨false⟩), fun _ _ => .error "safe mode check failed"⟩).1 rfl

end Ezkl
